import Mathlib

/-!
Verification of the text-rendering engine of `src/services/composition.py`
(class `CompositionService`), as a shallow embedding in Lean.

Modelling conventions:
* Python `int` is `Int`; Python float arithmetic on the opacity / radius /
  angle parameters is modelled exactly with `ℚ` (every constant involved,
  such as `0.375 = 3/8`, is a dyadic rational that float64 represents
  exactly, and the code only multiplies, divides and subtracts a handful of
  small quantities).
* Python `int(x)` on a float truncates toward zero: `truncQ`.
* Python `//` on nonnegative ints is `Nat` division / `Int` division.
* `math.cos(math.radians θ)` and `math.sin(math.radians θ)` are modelled by
  abstract functions `cosD sinD : ℚ → ℚ` taking the angle in degrees; no
  claim depends on their values.
* A function that can raise returns `Option` / `Except`: `none` / `error`
  is a raised exception.
* Strings are `List Char`. `Python int(s, 16)` is modelled on hex-digit
  strings only (`hexDigitVal`); its acceptance of surrounding whitespace,
  signs and `0x` prefixes is irrelevant to the colour strings at issue and
  is not modelled.
* PIL calls (`draw.text`, `textbbox`, `truetype`, file IO, S3 upload) are
  external: a draw becomes a `DrawCall` record in an emitted list, the
  measured text size `(w, h)` is a parameter, and fallible IO is an oracle
  of type `Except`/`Option` supplied as a structure of functions.
-/

/-- RGBA colour tuple as produced by `_hex_to_rgba` (channels are Python ints). -/
structure Rgba where
  r : Int
  g : Int
  b : Int
  a : Int
deriving DecidableEq, Repr

/-- Python `int(c, 16)` for a single character: the value of a hex digit,
`none` when the character is not a hex digit (a raised `ValueError`). -/
def hexDigitVal (c : Char) : Option Int :=
  if '0' ≤ c ∧ c ≤ '9' then some ((c.toNat : Int) - ('0'.toNat : Int))
  else if 'a' ≤ c ∧ c ≤ 'f' then some ((c.toNat : Int) - ('a'.toNat : Int) + 10)
  else if 'A' ≤ c ∧ c ≤ 'F' then some ((c.toNat : Int) - ('A'.toNat : Int) + 10)
  else Option.none

/-- Python `int(s, 16)` for a two-character slice such as `hex_color[0:2]`. -/
def hexPair (c1 c2 : Char) : Option Int := do
  let v1 ← hexDigitVal c1
  let v2 ← hexDigitVal c2
  pure (16 * v1 + v2)

/-- Embedding of `CompositionService._hex_to_rgba` (composition.py lines
422-456).  The source checks `startswith('#')` (anything else returns opaque
white), strips every leading `#` with `lstrip('#')`, then branches on the
length: 8, 6, 4 and 3 digits are parsed (short forms multiply each nibble
by 17), any other length returns opaque white.  A digit that `int(_, 16)`
rejects raises, i.e. returns `none` here. -/
def hexToRgba (s : List Char) : Option Rgba :=
  if s.head? = some '#' then
    match s.dropWhile (fun c => c = '#') with
    | [c1, c2, c3, c4, c5, c6, c7, c8] => do
        let r ← hexPair c1 c2
        let g ← hexPair c3 c4
        let b ← hexPair c5 c6
        let a ← hexPair c7 c8
        pure ⟨r, g, b, a⟩
    | [c1, c2, c3, c4, c5, c6] => do
        let r ← hexPair c1 c2
        let g ← hexPair c3 c4
        let b ← hexPair c5 c6
        pure ⟨r, g, b, 255⟩
    | [c1, c2, c3, c4] => do
        let r ← hexDigitVal c1
        let g ← hexDigitVal c2
        let b ← hexDigitVal c3
        let a ← hexDigitVal c4
        pure ⟨17 * r, 17 * g, 17 * b, 17 * a⟩
    | [c1, c2, c3] => do
        let r ← hexDigitVal c1
        let g ← hexDigitVal c2
        let b ← hexDigitVal c3
        pure ⟨17 * r, 17 * g, 17 * b, 255⟩
    | _ => some ⟨255, 255, 255, 255⟩
  else some ⟨255, 255, 255, 255⟩

/-- Python `int(_)` applied to an exact rational: truncation toward zero. -/
def truncQ (q : ℚ) : Int := if 0 ≤ q then ⌊q⌋ else ⌈q⌉

/-- The inline pattern `(rgba[0], rgba[1], rgba[2], int(255 * opacity))`
used by the shadow (line 290), outline (line 312) and glow (lines 342, 351)
branches of `_apply_text_effects` to build a draw colour from a parsed
settings colour and an opacity. -/
def applyOpacity (c : Rgba) (o : ℚ) : Rgba :=
  ⟨c.r, c.g, c.b, truncQ (255 * o)⟩

/-- The anchor-to-draw-origin correction of `_apply_text_effects`
(composition.py lines 245-255): `centered_x = x - text_width // 2`,
`vertical_adjustment = int(text_height * 0.375)`,
`centered_y = y - text_height // 2 - vertical_adjustment`. -/
def resolveOrigin (x y : Int) (w h : Nat) : Int × Int :=
  (x - ((w / 2 : Nat) : Int),
   y - ((h / 2 : Nat) : Int) - truncQ ((h : ℚ) * 0.375))

/-- Fill argument of a `draw.text` call: either a colour string passed
through to PIL verbatim, or an RGBA tuple built by the effect code. -/
inductive Fill where
  | named (s : List Char)
  | rgba (c : Rgba)
deriving DecidableEq, Repr

/-- One `draw.text(position, text, fill, font)` call (text and font are the
same for every call of one `_apply_text_effects` invocation and are
omitted). -/
structure DrawCall where
  pos : Int × Int
  fill : Fill
deriving DecidableEq, Repr

/-- The optional keys of the `settings` dict read by `_apply_text_effects`;
`none` means the key is absent and `settings.get(key, default)` yields the
branch's default. -/
structure EffectSettings where
  offset : Option (List Int) := Option.none
  color : Option (List Char) := Option.none
  opacity : Option ℚ := Option.none
  blur : Option ℚ := Option.none
  width : Option Int := Option.none
  radius : Option Int := Option.none
  layers : Option Int := Option.none
  angle : Option ℚ := Option.none
  distance : Option ℚ := Option.none
  color_gradient : Option (List (List Char)) := Option.none
deriving DecidableEq

/-- Shape of the `effects` argument of `_apply_text_effects`:
`none` is a Python `None` or empty dict (falsy), `typed` is the new format
with a `type` key, `legacyShadow` is a non-empty dict without `type` but
with a `shadow` key, `legacyOther` a non-empty dict with neither. -/
inductive Effects where
  | none
  | typed (ty : List Char) (settings : EffectSettings)
  | legacyShadow (offset : Option (Int × Int)) (color : Option (List Char))
  | legacyOther
deriving DecidableEq

def shadowTag : List Char := "shadow".toList
def outlineTag : List Char := "outline".toList
def glowTag : List Char := "glow".toList
def depthTag : List Char := "3d_depth".toList
def blackHex : List Char := "#000000".toList
def whiteHex : List Char := "#FFFFFF".toList
def grey33 : List Char := "#333333".toList
def grey66 : List Char := "#666666".toList
def grey99 : List Char := "#999999".toList

/-- Python `range(a, b)` over ints. -/
def pyRange (a b : Int) : List Int :=
  (List.range (b - a).toNat).map (fun (k : Nat) => a + (k : Int))

/-- Python `range(n, 0, -1)` over ints: `[n, n-1, ..., 1]`. -/
def pyRangeDown (n : Int) : List Int :=
  (List.range n.toNat).map (fun (k : Nat) => n - (k : Int))

/-- Python `range(0, 360, 30)`, the twelve glow angles in degrees. -/
def glowAngles : List ℚ :=
  [0, 30, 60, 90, 120, 150, 180, 210, 240, 270, 300, 330]

/-- Python list indexing `l[i]`: negative indices count from the end and an
out-of-range index raises `IndexError` (`none`). -/
def pyIndex {α : Type} (l : List α) (i : Int) : Option α :=
  if 0 ≤ i then l.get? i.toNat
  else if 0 ≤ (l.length : Int) + i then l.get? ((l.length : Int) + i).toNat
  else Option.none

/-- Sequencing of a fallible computation over a list: the first failure
(a raised exception inside a Python `for` loop) aborts the whole run. -/
def optMapM {α β : Type} (f : α → Option β) : List α → Option (List β)
  | [] => some []
  | a :: l =>
    match f a, optMapM f l with
    | some b, some bs => some (b :: bs)
    | _, _ => Option.none

/-- The shadow-offset normalisation of `_apply_text_effects` (lines
281-284): a list/tuple of length at least two yields its first two entries,
anything else the default `(5, 5)`. -/
def shadowOffset (s : EffectSettings) : Int × Int :=
  match s.offset.getD [5, 5] with
  | a :: b :: _ => (a, b)
  | _ => (5, 5)

/-- The gradient index of the 3d_depth branch (line 387):
`min(int((i / layers) * (len(color_gradient) - 1)), len(color_gradient) - 1)`. -/
def depthIdx (layers n i : Int) : Int :=
  min (truncQ (((i : ℚ) / (layers : ℚ)) * ((n : ℚ) - 1))) (n - 1)

/-- Embedding of `CompositionService._apply_text_effects` (composition.py
lines 200-420) as the list of `draw.text` calls it issues, in order;
`none` is a raised exception.  `cosD`/`sinD` stand for
`math.cos(math.radians _)`/`math.sin(math.radians _)`; `w`/`h` are the
measured `textbbox` width and height; `x`/`y` the anchor position. -/
def applyTextEffects (cosD sinD : ℚ → ℚ) (x y : Int) (w h : Nat)
    (color : List Char) (eff : Effects) : Option (List DrawCall) :=
  let o := resolveOrigin x y w h
  let base : DrawCall := ⟨o, Fill.named color⟩
  match eff with
  | Effects.none => some [base]
  | Effects.legacyShadow off col =>
      let so := off.getD (5, 5)
      let sc := col.getD blackHex
      some [⟨(o.1 + so.1, o.2 + so.2), Fill.named sc⟩, base]
  | Effects.legacyOther => some [base]
  | Effects.typed ty s =>
    if ty = shadowTag then
      let off : Int × Int := shadowOffset s
      let sc := s.color.getD blackHex
      let so := s.opacity.getD (1/2)
      match hexToRgba sc with
      | some rgba =>
          some [⟨(o.1 + off.1, o.2 + off.2), Fill.rgba (applyOpacity rgba so)⟩, base]
      | Option.none => Option.none
    else if ty = outlineTag then
      let wd := s.width.getD 2
      let oc := s.color.getD blackHex
      let oo := s.opacity.getD 1
      match hexToRgba oc with
      | some rgba =>
          some (((pyRange (-wd) (wd + 1)).flatMap (fun ox =>
            (pyRange (-wd) (wd + 1)).flatMap (fun oy =>
              if ox = 0 ∧ oy = 0 then []
              else [⟨(o.1 + ox, o.2 + oy), Fill.rgba (applyOpacity rgba oo)⟩]))) ++ [base])
      | Option.none => Option.none
    else if ty = glowTag then
      let gc := s.color.getD whiteHex
      let gr := s.radius.getD 10
      let go := s.opacity.getD (7/10)
      match hexToRgba gc with
      | some rgba =>
          let steps : Int := min gr 20
          some (((pyRange 1 (steps + 1)).flatMap (fun i =>
            let currentRadius : ℚ := ((i : ℚ) / (steps : ℚ)) * (gr : ℚ)
            let currentOpacity : ℚ := go * (1 - (i : ℚ) / (steps : ℚ))
            glowAngles.map (fun θ =>
              ⟨(o.1 + truncQ (currentRadius * cosD θ),
                o.2 + truncQ (currentRadius * sinD θ)),
               Fill.rgba (applyOpacity rgba currentOpacity)⟩))) ++ [base])
      | Option.none => Option.none
    else if ty = depthTag then
      let layers := s.layers.getD 10
      let angle := s.angle.getD 45
      let distance := s.distance.getD 2
      let grad := s.color_gradient.getD [grey33, grey66, grey99]
      let dx : ℚ := cosD angle * distance
      let dy : ℚ := sinD angle * distance
      match optMapM (fun i =>
          (pyIndex grad (depthIdx layers (grad.length : Int) i)).map (fun lc =>
            ⟨(o.1 - truncQ ((i : ℚ) * dx), o.2 - truncQ ((i : ℚ) * dy)),
             Fill.named lc⟩))
          (pyRangeDown layers) with
      | some ls => some (ls ++ [base])
      | Option.none => Option.none
    else
      some [base]

/-- Error values raised and wrapped by the service methods. -/
inductive Err where
  | fileNotFound
  | imageError
  | renderError
  | saveError
  | uploadError
  | indexError
  | valueError (e : Err)
deriving DecidableEq, Repr

/-- External collaborators of `add_text` (composition.py lines 512-620):
path resolution, image decoding, the local save and the S3 upload, each of
which can raise.  `Except.error` is a raised exception. -/
structure AddTextIO where
  resolvePath : Except Err (List Char)
  openImage : List Char → Except Err Unit
  saveImage : Except Err (List Char)
  upload : List Char → Except Err (List Char)

/-- Body of the `try` block of `add_text`: resolve the path, decode the
image, render the text with effects, save locally, upload, and return the
local path together with the cloud URL.  Each stage's raised exception
aborts the body (explicit exception propagation). -/
def addTextBody (io : AddTextIO) (cosD sinD : ℚ → ℚ) (x y : Int) (w h : Nat)
    (color : List Char) (eff : Effects) : Except Err (List Char × List Char) :=
  match io.resolvePath with
  | Except.error e => Except.error e
  | Except.ok p =>
    match io.openImage p with
    | Except.error e => Except.error e
    | Except.ok _ =>
      match applyTextEffects cosD sinD x y w h color eff with
      | Option.none => Except.error Err.renderError
      | some _ =>
        match io.saveImage with
        | Except.error e => Except.error e
        | Except.ok path =>
          match io.upload path with
          | Except.error e => Except.error e
          | Except.ok url => Except.ok (path, url)

/-- Embedding of `CompositionService.add_text`: the `except` clause wraps
any raised error in a `ValueError` and re-raises; nothing is returned on
failure. -/
def addText (io : AddTextIO) (cosD sinD : ℚ → ℚ) (x y : Int) (w h : Nat)
    (color : List Char) (eff : Effects) : Except Err (List Char × List Char) :=
  match addTextBody io cosD sinD x y w h color eff with
  | Except.ok r => Except.ok r
  | Except.error e => Except.error (Err.valueError e)

/-- The `self.dramatic_fonts` alias table (composition.py lines 28-35). -/
def dramaticFonts : List (List Char × List Char) :=
  [("anton".toList, "Anton-Regular.ttf".toList),
   ("sixcaps".toList, "SixCaps.ttf".toList),
   ("impact".toList, "Impact".toList),
   ("arial_bold".toList, "Arial Bold".toList),
   ("helvetica_bold".toList, "Helvetica Bold".toList),
   ("boldonse".toList, "Boldonse.ttf".toList)]

/-- ASCII model of Python `str.lower()` (the alias-table keys are ASCII). -/
def lowerChar (c : Char) : Char :=
  if 'A' ≤ c ∧ c ≤ 'Z' then Char.ofNat (c.toNat + 32) else c

def lowerStr (s : List Char) : List Char := s.map lowerChar

/-- Python `font_file.endswith('.ttf') or font_file.endswith('.otf')`. -/
def hasFontExt (file : List Char) : Bool :=
  List.isSuffixOf (".ttf".toList) file || List.isSuffixOf (".otf".toList) file

/-- Path `self.fonts_dir / font_file`. -/
def fontsDirPath (file : List Char) : List Char := "assets/fonts/".toList ++ file

def arialName : List Char := "Arial".toList

/-- External collaborators of `_get_font`: `ImageFont.truetype` (which can
raise: `none`), `Path.exists`, and the never-failing
`ImageFont.load_default()`.  `H` is the opaque font-handle type. -/
structure FontIO (H : Type) where
  truetype : List Char → Int → Option H
  fontFileExists : List Char → Bool
  defaultFont : H

/-- The `try` block of `_get_font` (composition.py lines 176-191): look the
lowercased name up in the alias table; a `.ttf`/`.otf` alias that exists in
the fonts directory is loaded from there, any other alias is loaded as a
system font, and a name with no alias is loaded directly as a system
font.  `none` is an exception raised inside the block. -/
def fontAttempt {H : Type} (io : FontIO H) (name : List Char) (size : Int) : Option H :=
  match List.lookup (lowerStr name) dramaticFonts with
  | some file =>
      if hasFontExt file && io.fontFileExists (fontsDirPath file)
      then io.truetype (fontsDirPath file) size
      else io.truetype file size
  | Option.none => io.truetype name size

/-- Embedding of `CompositionService._get_font` (composition.py lines
174-198): any failure of the main attempt falls back to the system font
"Arial", and a failure of that falls back to the built-in default font.
The function is total: it never raises. -/
def getFont {H : Type} (io : FontIO H) (name : List Char) (size : Int) : H :=
  match fontAttempt io name size with
  | some f => f
  | Option.none =>
      match io.truetype arialName size with
      | some f => f
      | Option.none => io.defaultFont

/-- One entry of the `text_layers` argument of `add_multiple_text_layers`,
with the measured text size of its text/font folded in (`textbbox` is an
external PIL call). -/
structure LayerSpec where
  x : Int
  y : Int
  w : Nat
  h : Nat
  color : List Char
  effects : Effects

/-- The per-layer work of `add_multiple_text_layers` (composition.py lines
896-918): one `_apply_text_effects` call. -/
def renderLayer (cosD sinD : ℚ → ℚ) (l : LayerSpec) : Option (List DrawCall) :=
  applyTextEffects cosD sinD l.x l.y l.w l.h l.color l.effects

/-- Embedding of the layer loop of `add_multiple_text_layers`: the draws of
all layers on the shared canvas, in order; a raise in any layer aborts the
whole call. -/
def renderLayers (cosD sinD : ℚ → ℚ) (ls : List LayerSpec) : Option (List DrawCall) :=
  (optMapM (renderLayer cosD sinD) ls).map List.flatten

/-- ASCII model of Python `str.upper()`. -/
def upperChar (c : Char) : Char :=
  if 'a' ≤ c ∧ c ≤ 'z' then Char.ofNat (c.toNat - 32) else c

/-- Embedding of `CompositionService.add_dramatic_text` (composition.py
lines 622-690).  `call` is the inner `await self.add_text(...)`.  The text
transformations: optional uppercasing, then
`if with_period and not processed_text[-1] in ".!?"` appends a period —
indexing `[-1]` raises `IndexError` on an empty string.  The surrounding
`try`/`except` wraps any raised error in a `ValueError`. -/
def addDramaticText (call : List Char → Except Err (List Char × List Char))
    (text : List Char) (withPeriod toUppercase : Bool) :
    Except Err (List Char × List Char) :=
  let processed := if toUppercase then text.map upperChar else text
  let afterPeriod : Except Err (List Char) :=
    if withPeriod then
      match processed.getLast? with
      | Option.none => Except.error Err.indexError
      | some c =>
          Except.ok (if c ∈ ['.', '!', '?'] then processed else processed ++ ['.'])
    else Except.ok processed
  match (match afterPeriod with
         | Except.ok t => call t
         | Except.error e => Except.error e) with
  | Except.ok r => Except.ok r
  | Except.error e => Except.error (Err.valueError e)

/-! Helper lemmas shared by the claim theorems. -/

theorem truncQ_eq_floor {q : ℚ} (h : 0 ≤ q) : truncQ q = ⌊q⌋ := if_pos h

theorem length_pyRange (a b : Int) : (pyRange a b).length = (b - a).toNat := by
  simp [pyRange]

theorem mem_pyRange {a b x : Int} : x ∈ pyRange a b ↔ a ≤ x ∧ x < b := by
  simp only [pyRange, List.mem_map, List.mem_range]
  constructor
  · rintro ⟨k, hk, rfl⟩
    omega
  · intro hx
    exact ⟨(x - a).toNat, by omega, by omega⟩

theorem nodup_pyRange (a b : Int) : (pyRange a b).Nodup := by
  refine List.Nodup.map ?_ (List.nodup_range _)
  intro k l hkl
  simpa using hkl

theorem hexDigitVal_ne_hash {c : Char} {v : Int} (h : hexDigitVal c = some v) :
    c ≠ '#' := by
  intro hc
  subst hc
  rw [show hexDigitVal '#' = Option.none from rfl] at h
  cases h

/-- C10: calling `add_dramatic_text` with the empty string and the default
`with_period=True` raises a `ValueError` wrapping the `IndexError` from
reading `processed_text[-1]`, whatever the inner `add_text` oracle and the
`to_uppercase` flag; no result is produced. -/
theorem claim10_empty_text_raises
    (call : List Char → Except Err (List Char × List Char)) (toUp : Bool) :
    addDramaticText call [] true toUp = Except.error (Err.valueError Err.indexError) := by
  cases toUp <;> rfl

/-- C2 counterexample: the well-formed 3-digit colour "F00" without the
leading '#' is NOT parsed by duplication to (255,0,0,255) as the claim
states: `_hex_to_rgba` only parses strings that start with '#', and returns
the opaque-white fallback for "F00", while "#F00" does parse to red. -/
theorem claim2_counterexample :
    hexToRgba ("F00".toList) = some ⟨255, 255, 255, 255⟩ ∧
    hexToRgba ("#F00".toList) = some ⟨255, 0, 0, 255⟩ ∧
    (⟨255, 255, 255, 255⟩ : Rgba) ≠ ⟨255, 0, 0, 255⟩ := by
  refine ⟨rfl, rfl, ?_⟩
  decide

/-- C2 as amended: parsing requires the leading '#' (one or more '#'s are
stripped); with it, 3/4/6/8 hex digits parse with nibble duplication and a
default alpha of 255, and "#F00" = "#FF0000" = red; a string that does not
start with '#', or whose stripped digit part has any other length, returns
opaque white without raising; but a '#'-prefixed candidate of a valid
length whose characters are not hex digits raises (e.g. "#zzz"), instead of
returning white as the original claim stated. -/
theorem claim2_amended
    (c1 c2 c3 c4 c5 c6 c7 c8 : Char) (v1 v2 v3 v4 v5 v6 v7 v8 : Int)
    (h1 : hexDigitVal c1 = some v1) (h2 : hexDigitVal c2 = some v2)
    (h3 : hexDigitVal c3 = some v3) (h4 : hexDigitVal c4 = some v4)
    (h5 : hexDigitVal c5 = some v5) (h6 : hexDigitVal c6 = some v6)
    (h7 : hexDigitVal c7 = some v7) (h8 : hexDigitVal c8 = some v8) :
    hexToRgba ('#' :: [c1, c2, c3]) = some ⟨17 * v1, 17 * v2, 17 * v3, 255⟩ ∧
    hexToRgba ('#' :: [c1, c2, c3, c4]) = some ⟨17 * v1, 17 * v2, 17 * v3, 17 * v4⟩ ∧
    hexToRgba ('#' :: [c1, c2, c3, c4, c5, c6]) =
      some ⟨16 * v1 + v2, 16 * v3 + v4, 16 * v5 + v6, 255⟩ ∧
    hexToRgba ('#' :: [c1, c2, c3, c4, c5, c6, c7, c8]) =
      some ⟨16 * v1 + v2, 16 * v3 + v4, 16 * v5 + v6, 16 * v7 + v8⟩ ∧
    hexToRgba ("#F00".toList) = some ⟨255, 0, 0, 255⟩ ∧
    hexToRgba ("#FF0000".toList) = some ⟨255, 0, 0, 255⟩ ∧
    (∀ c s, c ≠ '#' → hexToRgba (c :: s) = some ⟨255, 255, 255, 255⟩) ∧
    hexToRgba [] = some ⟨255, 255, 255, 255⟩ ∧
    (∀ s, (s.dropWhile (fun c => c = '#')).length ∉ ([3, 4, 6, 8] : List Nat) →
        hexToRgba ('#' :: s) = some ⟨255, 255, 255, 255⟩) ∧
    hexToRgba ("#zzz".toList) = Option.none := by
  have hc1 := hexDigitVal_ne_hash h1
  refine ⟨?_, ?_, ?_, ?_, rfl, rfl, ?_, rfl, ?_, rfl⟩
  · simp [hexToRgba, List.dropWhile_cons, hc1, hexPair, h1, h2, h3]
  · simp [hexToRgba, List.dropWhile_cons, hc1, hexPair, h1, h2, h3, h4]
  · simp [hexToRgba, List.dropWhile_cons, hc1, hexPair, h1, h2, h3, h4, h5, h6]
  · simp [hexToRgba, List.dropWhile_cons, hc1, hexPair, h1, h2, h3, h4, h5, h6, h7, h8]
  · intro c s hc
    rw [hexToRgba, if_neg]
    simp [hc]
  · intro s hlen
    rw [hexToRgba, if_pos (show (('#' :: s).head? = some '#') from rfl)]
    have hdrop : ('#' :: s).dropWhile (fun c => c = '#') = s.dropWhile (fun c => c = '#') := by
      simp [List.dropWhile_cons]
    rw [hdrop]
    set t := s.dropWhile (fun c => c = '#') with ht
    clear_value t
    rcases t with _ | ⟨a1, _ | ⟨a2, _ | ⟨a3, _ | ⟨a4, _ | ⟨a5, _ | ⟨a6, _ | ⟨a7, _ | ⟨a8, _ | ⟨a9, rest⟩⟩⟩⟩⟩⟩⟩⟩⟩
    · rfl
    · rfl
    · rfl
    · simp at hlen
    · simp at hlen
    · rfl
    · simp at hlen
    · rfl
    · simp at hlen
    · rfl

theorem mem_pyRangeDown {n x : Int} : x ∈ pyRangeDown n ↔ 1 ≤ x ∧ x ≤ n := by
  simp only [pyRangeDown, List.mem_map, List.mem_range]
  constructor
  · rintro ⟨k, hk, rfl⟩
    omega
  · intro hx
    exact ⟨(n - x).toNat, by omega, by omega⟩

theorem length_pyRangeDown (n : Int) : (pyRangeDown n).length = n.toNat := by
  rw [pyRangeDown, List.length_map, List.length_range]

theorem getElem?_pyRangeDown {n : Int} {k : Nat} (hk : k < n.toNat) :
    (pyRangeDown n)[k]? = some (n - (k : Int)) := by
  simp [pyRangeDown, List.getElem?_map, List.getElem?_range, hk]

theorem optMapM_map_of_success {α β : Type} {f : α → Option β} {g : α → β} {l : List α}
    (h : ∀ a ∈ l, f a = some (g a)) : optMapM f l = some (l.map g) := by
  induction l with
  | nil => rfl
  | cons a l ih =>
      simp only [optMapM, h a (List.mem_cons_self a l),
        ih (fun b hb => h b (List.mem_cons_of_mem a hb)), List.map_cons]

theorem applyTextEffects_shadow (cosD sinD : ℚ → ℚ) (x y : Int) (w h : Nat)
    (color : List Char) (s : EffectSettings) (rgba : Rgba)
    (hparse : hexToRgba (s.color.getD blackHex) = some rgba) :
    applyTextEffects cosD sinD x y w h color (Effects.typed shadowTag s) =
      some [⟨((resolveOrigin x y w h).1 + (shadowOffset s).1,
              (resolveOrigin x y w h).2 + (shadowOffset s).2),
             Fill.rgba (applyOpacity rgba (s.opacity.getD (1/2)))⟩,
            ⟨resolveOrigin x y w h, Fill.named color⟩] := by
  unfold applyTextEffects
  dsimp only
  rw [if_pos rfl, hparse]

theorem applyTextEffects_outline (cosD sinD : ℚ → ℚ) (x y : Int) (w h : Nat)
    (color : List Char) (s : EffectSettings) (rgba : Rgba)
    (hparse : hexToRgba (s.color.getD blackHex) = some rgba) :
    applyTextEffects cosD sinD x y w h color (Effects.typed outlineTag s) =
      some (((pyRange (-(s.width.getD 2)) (s.width.getD 2 + 1)).flatMap (fun ox =>
        (pyRange (-(s.width.getD 2)) (s.width.getD 2 + 1)).flatMap (fun oy =>
          if ox = 0 ∧ oy = 0 then []
          else [⟨((resolveOrigin x y w h).1 + ox, (resolveOrigin x y w h).2 + oy),
                Fill.rgba (applyOpacity rgba (s.opacity.getD 1))⟩]))) ++
        [⟨resolveOrigin x y w h, Fill.named color⟩]) := by
  unfold applyTextEffects
  dsimp only
  rw [if_neg (by decide), if_pos rfl, hparse]

theorem applyTextEffects_glow (cosD sinD : ℚ → ℚ) (x y : Int) (w h : Nat)
    (color : List Char) (s : EffectSettings) (rgba : Rgba)
    (hparse : hexToRgba (s.color.getD whiteHex) = some rgba) :
    applyTextEffects cosD sinD x y w h color (Effects.typed glowTag s) =
      some (((pyRange 1 (min (s.radius.getD 10) 20 + 1)).flatMap (fun i =>
        glowAngles.map (fun θ =>
          ⟨((resolveOrigin x y w h).1 +
              truncQ ((((i : ℚ) / ((min (s.radius.getD 10) 20 : Int) : ℚ)) *
                ((s.radius.getD 10 : Int) : ℚ)) * cosD θ),
            (resolveOrigin x y w h).2 +
              truncQ ((((i : ℚ) / ((min (s.radius.getD 10) 20 : Int) : ℚ)) *
                ((s.radius.getD 10 : Int) : ℚ)) * sinD θ)),
           Fill.rgba (applyOpacity rgba
             ((s.opacity.getD (7/10)) *
               (1 - (i : ℚ) / ((min (s.radius.getD 10) 20 : Int) : ℚ))))⟩))) ++
        [⟨resolveOrigin x y w h, Fill.named color⟩]) := by
  unfold applyTextEffects
  dsimp only
  rw [if_neg (by decide), if_neg (by decide), if_pos rfl, hparse]

theorem depthIdx_bounds {L n i : Int} (hL : 1 ≤ L) (hn : 1 ≤ n)
    (hi1 : 1 ≤ i) (hiL : i ≤ L) :
    0 ≤ depthIdx L n i ∧ depthIdx L n i ≤ n - 1 := by
  unfold depthIdx
  refine ⟨le_min ?_ (by omega), min_le_right _ _⟩
  rw [truncQ_eq_floor]
  · apply Int.floor_nonneg.2
    apply mul_nonneg
    · apply div_nonneg
      · exact_mod_cast (by omega : (0 : Int) ≤ i)
      · exact_mod_cast (by omega : (0 : Int) ≤ L)
    · have : (1 : ℚ) ≤ (n : ℚ) := by exact_mod_cast hn
      linarith
  · apply mul_nonneg
    · apply div_nonneg
      · exact_mod_cast (by omega : (0 : Int) ≤ i)
      · exact_mod_cast (by omega : (0 : Int) ≤ L)
    · have : (1 : ℚ) ≤ (n : ℚ) := by exact_mod_cast hn
      linarith

theorem pyIndex_eq_getD {α : Type} {l : List α} {i : Int} (h0 : 0 ≤ i)
    (hlt : i.toNat < l.length) (d : α) :
    pyIndex l i = some (l.getD i.toNat d) := by
  rw [pyIndex, if_pos h0, List.get?_eq_getElem?, List.getElem?_eq_getElem hlt,
    List.getD_eq_getElem _ d hlt]

theorem depth_map_success (grad : List (List Char)) (L : Int) (pos : Int → Int × Int)
    (hN : 1 ≤ grad.length) (hL : 1 ≤ L) :
    optMapM (fun i => (pyIndex grad (depthIdx L (grad.length : Int) i)).map
      (fun lc => (⟨pos i, Fill.named lc⟩ : DrawCall))) (pyRangeDown L) =
    some ((pyRangeDown L).map (fun i =>
      (⟨pos i, Fill.named (grad.getD (depthIdx L (grad.length : Int) i).toNat blackHex)⟩ :
        DrawCall))) := by
  apply optMapM_map_of_success
  intro i hi
  rw [mem_pyRangeDown] at hi
  have hn : (1 : Int) ≤ (grad.length : Int) := by exact_mod_cast hN
  have hb := depthIdx_bounds hL hn hi.1 hi.2
  have htn : (depthIdx L (grad.length : Int) i).toNat < grad.length := by omega
  rw [pyIndex_eq_getD hb.1 htn blackHex]
  rfl

theorem applyTextEffects_depth (cosD sinD : ℚ → ℚ) (x y : Int) (w h : Nat)
    (color : List Char) (s : EffectSettings)
    (hL : 1 ≤ s.layers.getD 10)
    (hN : 1 ≤ (s.color_gradient.getD [grey33, grey66, grey99]).length) :
    applyTextEffects cosD sinD x y w h color (Effects.typed depthTag s) =
      some (((pyRangeDown (s.layers.getD 10)).map (fun (i : Int) =>
        (⟨((resolveOrigin x y w h).1 -
            truncQ ((i : ℚ) * (cosD (s.angle.getD 45) * (s.distance.getD 2))),
           (resolveOrigin x y w h).2 -
            truncQ ((i : ℚ) * (sinD (s.angle.getD 45) * (s.distance.getD 2)))),
          Fill.named ((s.color_gradient.getD [grey33, grey66, grey99]).getD
            (depthIdx (s.layers.getD 10)
              ((s.color_gradient.getD [grey33, grey66, grey99]).length : Int) i).toNat
            blackHex)⟩ : DrawCall))) ++
        [⟨resolveOrigin x y w h, Fill.named color⟩]) := by
  unfold applyTextEffects
  dsimp only
  rw [if_neg (by decide), if_neg (by decide), if_neg (by decide), if_pos rfl]
  rw [depth_map_success _ _ _ hN hL]

/-- C2 witness: the amended parse behaviour at the concrete digits of
"#F00". -/
theorem claim2_amended_witness :
    hexToRgba ('#' :: ['F', '0', '0']) = some ⟨255, 0, 0, 255⟩ := by
  have h := claim2_amended 'F' '0' '0' '0' 'F' 'F' '0' '0' 15 0 0 0 15 15 0 0
    rfl rfl rfl rfl rfl rfl rfl rfl
  simpa using h.1

/-- C1: for every anchor `(x, y)` and measured text size `(w, h)`, the draw
origin computed by `_apply_text_effects` is
`(x - w // 2, y - h // 2 - floor(h * 0.375))`, and every effect variant
ends by drawing the base text exactly at that origin (the offset draws of
the effects are all relative to it). -/
theorem claim1_draw_origin (cosD sinD : ℚ → ℚ) (x y : Int) (w h : Nat)
    (color : List Char) (eff : Effects) (draws : List DrawCall)
    (hd : applyTextEffects cosD sinD x y w h color eff = some draws) :
    resolveOrigin x y w h =
      (x - (w : Int) / 2, y - (h : Int) / 2 - ⌊(h : ℚ) * 0.375⌋) ∧
    draws.getLast? = some ⟨resolveOrigin x y w h, Fill.named color⟩ := by
  constructor
  · unfold resolveOrigin
    have hw : ((w / 2 : Nat) : Int) = (w : Int) / 2 := by omega
    have hh : ((h / 2 : Nat) : Int) = (h : Int) / 2 := by omega
    have hq : truncQ ((h : ℚ) * 0.375) = ⌊(h : ℚ) * 0.375⌋ := by
      apply truncQ_eq_floor
      have h1 : (0 : ℚ) ≤ (h : ℚ) := Nat.cast_nonneg h
      have h2 : (0 : ℚ) ≤ 0.375 := by norm_num
      exact mul_nonneg h1 h2
    rw [hw, hh, hq]
  · rcases eff with _ | ⟨ty, s⟩ | ⟨off, col⟩ | _
    · have hh : [(⟨resolveOrigin x y w h, Fill.named color⟩ : DrawCall)] = draws := by
        injection hd
      rw [← hh]
      rfl
    · by_cases t1 : ty = shadowTag
      · subst t1
        cases hx : hexToRgba (s.color.getD blackHex) with
        | some rgba =>
            rw [applyTextEffects_shadow cosD sinD x y w h color s rgba hx] at hd
            have hh := Option.some.inj hd
            rw [← hh]
            rfl
        | none =>
            unfold applyTextEffects at hd
            dsimp only at hd
            rw [if_pos rfl, hx] at hd
            cases hd
      · by_cases t2 : ty = outlineTag
        · subst t2
          cases hx : hexToRgba (s.color.getD blackHex) with
          | some rgba =>
              rw [applyTextEffects_outline cosD sinD x y w h color s rgba hx] at hd
              have hh := Option.some.inj hd
              rw [← hh]
              exact List.getLast?_concat _
          | none =>
              unfold applyTextEffects at hd
              dsimp only at hd
              rw [if_neg (by decide), if_pos rfl, hx] at hd
              cases hd
        · by_cases t3 : ty = glowTag
          · subst t3
            cases hx : hexToRgba (s.color.getD whiteHex) with
            | some rgba =>
                rw [applyTextEffects_glow cosD sinD x y w h color s rgba hx] at hd
                have hh := Option.some.inj hd
                rw [← hh]
                exact List.getLast?_concat _
            | none =>
                unfold applyTextEffects at hd
                dsimp only at hd
                rw [if_neg (by decide), if_neg (by decide), if_pos rfl, hx] at hd
                cases hd
          · by_cases t4 : ty = depthTag
            · subst t4
              unfold applyTextEffects at hd
              dsimp only at hd
              rw [if_neg (by decide), if_neg (by decide), if_neg (by decide),
                if_pos rfl] at hd
              split at hd
              · have hh := Option.some.inj hd
                rw [← hh]
                exact List.getLast?_concat _
              · cases hd
            · unfold applyTextEffects at hd
              dsimp only at hd
              rw [if_neg t1, if_neg t2, if_neg t3, if_neg t4] at hd
              have hh := Option.some.inj hd
              rw [← hh]
              rfl
    · have hh : [(⟨((resolveOrigin x y w h).1 + (off.getD (5, 5)).1,
          (resolveOrigin x y w h).2 + (off.getD (5, 5)).2),
          Fill.named (col.getD blackHex)⟩ : DrawCall),
          ⟨resolveOrigin x y w h, Fill.named color⟩] = draws := by
        injection hd
      rw [← hh]
      rfl
    · have hh : [(⟨resolveOrigin x y w h, Fill.named color⟩ : DrawCall)] = draws := by
        injection hd
      rw [← hh]
      rfl

/-- C1 witness: the plain draw at anchor (100, 100) with measured size
(40, 20). -/
theorem claim1_draw_origin_witness :
    resolveOrigin 100 100 40 20 =
      (100 - ((40 : Nat) : Int) / 2, 100 - ((20 : Nat) : Int) / 2 -
        ⌊((20 : Nat) : ℚ) * 0.375⌋) ∧
    [(⟨resolveOrigin 100 100 40 20, Fill.named whiteHex⟩ : DrawCall)].getLast? =
      some ⟨resolveOrigin 100 100 40 20, Fill.named whiteHex⟩ :=
  claim1_draw_origin (fun _ => 0) (fun _ => 0) 100 100 40 20 whiteHex Effects.none _ rfl

/-- C3 counterexample: with settings colour "#00000080" (parsed alpha 128)
and opacity 1/2, the shadow draw colour has alpha `int(255 * 0.5) = 127`,
not `floor(alpha * o) = floor(128 * 0.5) = 64` as the claim states: the
code ignores the parsed colour's own alpha channel. -/
theorem claim3_counterexample :
    applyTextEffects (fun _ => 0) (fun _ => 0) 0 0 0 0 whiteHex
        (Effects.typed shadowTag
          { color := some ("#00000080".toList), opacity := some (1/2) }) =
      some [⟨(5, 5), Fill.rgba ⟨0, 0, 0, 127⟩⟩, ⟨(0, 0), Fill.named whiteHex⟩] ∧
    hexToRgba ("#00000080".toList) = some ⟨0, 0, 0, 128⟩ ∧
    ⌊(128 : ℚ) * (1/2)⌋ = 64 ∧ (127 : Int) ≠ 64 := by
  have ho : resolveOrigin 0 0 0 0 = (0, 0) := by
    unfold resolveOrigin truncQ
    norm_num
  have hfl : ⌊(255 : ℚ) * (1/2)⌋ = 127 := by
    rw [show (255 : ℚ) * (1/2) = 127 + 1/2 by norm_num, Int.floor_eq_iff]
    norm_num
  have ha : applyOpacity ⟨0, 0, 0, 128⟩ (1/2 : ℚ) = ⟨0, 0, 0, 127⟩ := by
    unfold applyOpacity truncQ
    rw [if_pos (by norm_num), hfl]
  refine ⟨?_, rfl, by norm_num, by decide⟩
  have hdraw := applyTextEffects_shadow (fun _ => (0 : ℚ)) (fun _ => (0 : ℚ)) 0 0 0 0
    whiteHex { color := some ("#00000080".toList), opacity := some (1/2) }
    ⟨0, 0, 0, 128⟩ rfl
  rw [hdraw, ho]
  norm_num [shadowOffset, Option.getD_none, Option.getD_some, ha]

/-- C3 as amended: `applyOpacity` sets the draw alpha to `floor(255 * o)`
for `0 ≤ o`, ignoring the input colour's own alpha channel (for colours
whose parsed alpha is 255, i.e. 3- and 6-digit hex, this coincides with
scaling that alpha), and leaves R, G, B unchanged; at `o = 1` it yields
alpha 255.  The shadow draw colour is exactly
`applyOpacity (parsed colour) opacity`, and so is every outline offset draw
colour, while each glow ring draw uses `applyOpacity` at the ring's reduced
opacity `o * (1 - i/steps)`. -/
theorem claim3_amended :
    (∀ (c : Rgba) (o : ℚ), 0 ≤ o →
        applyOpacity c o = ⟨c.r, c.g, c.b, ⌊255 * o⌋⟩) ∧
    (∀ c : Rgba, applyOpacity c 1 = ⟨c.r, c.g, c.b, 255⟩) ∧
    (∀ (cosD sinD : ℚ → ℚ) (x y : Int) (w h : Nat) (color : List Char)
        (s : EffectSettings) (rgba : Rgba),
        hexToRgba (s.color.getD blackHex) = some rgba →
        applyTextEffects cosD sinD x y w h color (Effects.typed shadowTag s) =
          some [⟨((resolveOrigin x y w h).1 + (shadowOffset s).1,
                  (resolveOrigin x y w h).2 + (shadowOffset s).2),
                 Fill.rgba (applyOpacity rgba (s.opacity.getD (1/2)))⟩,
                ⟨resolveOrigin x y w h, Fill.named color⟩]) ∧
    (∀ (cosD sinD : ℚ → ℚ) (x y : Int) (w h : Nat) (color : List Char)
        (s : EffectSettings) (rgba : Rgba) (draws : List DrawCall),
        hexToRgba (s.color.getD blackHex) = some rgba →
        applyTextEffects cosD sinD x y w h color (Effects.typed outlineTag s) =
          some draws →
        ∀ d ∈ draws.dropLast,
          d.fill = Fill.rgba (applyOpacity rgba (s.opacity.getD 1))) ∧
    (∀ (cosD sinD : ℚ → ℚ) (x y : Int) (w h : Nat) (color : List Char)
        (s : EffectSettings) (rgba : Rgba) (draws : List DrawCall),
        hexToRgba (s.color.getD whiteHex) = some rgba →
        applyTextEffects cosD sinD x y w h color (Effects.typed glowTag s) =
          some draws →
        ∀ d ∈ draws.dropLast, ∃ i : Int,
          d.fill = Fill.rgba (applyOpacity rgba
            ((s.opacity.getD (7/10)) *
              (1 - (i : ℚ) / ((min (s.radius.getD 10) 20 : Int) : ℚ))))) := by
  refine ⟨?_, ?_, ?_, ?_, ?_⟩
  · intro c o ho
    unfold applyOpacity
    rw [truncQ_eq_floor (mul_nonneg (by norm_num) ho)]
  · intro c
    unfold applyOpacity truncQ
    norm_num
  · intro cosD sinD x y w h color s rgba hparse
    exact applyTextEffects_shadow cosD sinD x y w h color s rgba hparse
  · intro cosD sinD x y w h color s rgba draws hparse happ
    rw [applyTextEffects_outline cosD sinD x y w h color s rgba hparse] at happ
    have hh := Option.some.inj happ
    rw [← hh, List.dropLast_concat]
    intro d hdm
    rcases List.mem_flatMap.1 hdm with ⟨ox, _, hd2⟩
    rcases List.mem_flatMap.1 hd2 with ⟨oy, _, hd3⟩
    by_cases hc : ox = 0 ∧ oy = 0
    · rw [if_pos hc] at hd3
      cases hd3
    · rw [if_neg hc] at hd3
      rw [List.mem_singleton.1 hd3]
  · intro cosD sinD x y w h color s rgba draws hparse happ
    rw [applyTextEffects_glow cosD sinD x y w h color s rgba hparse] at happ
    have hh := Option.some.inj happ
    rw [← hh, List.dropLast_concat]
    intro d hdm
    rcases List.mem_flatMap.1 hdm with ⟨i, _, hd2⟩
    rcases List.mem_map.1 hd2 with ⟨θ, _, hd3⟩
    exact ⟨i, by rw [← hd3]⟩

/-- C3 witness: `applyOpacity` at the colour (0,0,0,128) and opacity 1/2. -/
theorem claim3_amended_witness :
    applyOpacity ⟨0, 0, 0, 128⟩ (1/2) = ⟨0, 0, 0, ⌊(255 : ℚ) * (1/2)⌋⟩ :=
  claim3_amended.1 ⟨0, 0, 0, 128⟩ (1/2) (by norm_num)

/-- C7: `add_text` returns no partial output.  Whatever the failure point
(path resolution, image decoding, effect application, local save, or the
upload after rendering), the call raises a wrapping `ValueError` and hands
back neither a path nor a URL; conversely a successful return implies every
stage, including the upload, succeeded with exactly the returned values. -/
theorem claim7_no_partial_output (io : AddTextIO) (cosD sinD : ℚ → ℚ)
    (x y : Int) (w h : Nat) (color : List Char) (eff : Effects) :
    (∀ e, io.resolvePath = Except.error e →
        addText io cosD sinD x y w h color eff = Except.error (Err.valueError e)) ∧
    (∀ p e, io.resolvePath = Except.ok p → io.openImage p = Except.error e →
        addText io cosD sinD x y w h color eff = Except.error (Err.valueError e)) ∧
    (∀ p, io.resolvePath = Except.ok p → io.openImage p = Except.ok () →
        applyTextEffects cosD sinD x y w h color eff = Option.none →
        addText io cosD sinD x y w h color eff =
          Except.error (Err.valueError Err.renderError)) ∧
    (∀ p ds e, io.resolvePath = Except.ok p → io.openImage p = Except.ok () →
        applyTextEffects cosD sinD x y w h color eff = some ds →
        io.saveImage = Except.error e →
        addText io cosD sinD x y w h color eff = Except.error (Err.valueError e)) ∧
    (∀ p ds path e, io.resolvePath = Except.ok p → io.openImage p = Except.ok () →
        applyTextEffects cosD sinD x y w h color eff = some ds →
        io.saveImage = Except.ok path → io.upload path = Except.error e →
        addText io cosD sinD x y w h color eff = Except.error (Err.valueError e)) ∧
    (∀ path url, addText io cosD sinD x y w h color eff = Except.ok (path, url) →
        io.saveImage = Except.ok path ∧ io.upload path = Except.ok url) := by
  refine ⟨?_, ?_, ?_, ?_, ?_, ?_⟩
  · intro e he
    simp only [addText, addTextBody, he]
  · intro p e hp he
    simp only [addText, addTextBody, hp, he]
  · intro p hp ho happ
    simp only [addText, addTextBody, hp, ho, happ]
  · intro p ds e hp ho happ hs
    simp only [addText, addTextBody, hp, ho, happ, hs]
  · intro p ds path e hp ho happ hs hu
    simp only [addText, addTextBody, hp, ho, happ, hs, hu]
  · intro path url hok
    unfold addText addTextBody at hok
    cases hre : io.resolvePath with
    | error e => simp only [hre] at hok; cases hok
    | ok p =>
      cases hoi : io.openImage p with
      | error e => simp only [hre, hoi] at hok; cases hok
      | ok u =>
        cases happ2 : applyTextEffects cosD sinD x y w h color eff with
        | none => simp only [hre, hoi, happ2] at hok; cases hok
        | some ds =>
          cases hs : io.saveImage with
          | error e => simp only [hre, hoi, happ2, hs] at hok; cases hok
          | ok path2 =>
            cases hu : io.upload path2 with
            | error e => simp only [hre, hoi, happ2, hs, hu] at hok; cases hok
            | ok url2 =>
              simp only [hre, hoi, happ2, hs, hu] at hok
              have h2 := Except.ok.inj hok
              have hp2 : path2 = path := congrArg Prod.fst h2
              subst hp2
              have hu2 : url2 = url := congrArg Prod.snd h2
              subst hu2
              exact ⟨rfl, hu⟩

/-- C7 witness: a failing path resolution yields a wrapped error and no
output. -/
theorem claim7_no_partial_output_witness :
    addText ⟨Except.error Err.fileNotFound, fun _ => Except.ok (),
        Except.ok [], fun _ => Except.ok []⟩
      (fun _ => 0) (fun _ => 0) 0 0 0 0 whiteHex Effects.none =
      Except.error (Err.valueError Err.fileNotFound) :=
  (claim7_no_partial_output ⟨Except.error Err.fileNotFound, fun _ => Except.ok (),
        Except.ok [], fun _ => Except.ok []⟩
      (fun _ => 0) (fun _ => 0) 0 0 0 0 whiteHex Effects.none).1
    Err.fileNotFound rfl

/-- C8: `_get_font` always returns a handle (the model is a total
function: every Python path returns), and the resolution order is: the
case-insensitive alias table decides the name attempted first (the aliased
`.ttf`/`.otf` file from the fonts directory when it exists, otherwise the
alias as a system font, and the raw name as a system font only when no
alias matched); if that attempt raises, "Arial" is tried; if that also
raises, the engine built-in default font is returned. -/
theorem claim8_font_fallback {H : Type} (io : FontIO H) (name : List Char) (size : Int) :
    (∃ f, getFont io name size = f) ∧
    (∀ file, List.lookup (lowerStr name) dramaticFonts = some file →
        (hasFontExt file && io.fontFileExists (fontsDirPath file)) = true →
        fontAttempt io name size = io.truetype (fontsDirPath file) size) ∧
    (∀ file, List.lookup (lowerStr name) dramaticFonts = some file →
        (hasFontExt file && io.fontFileExists (fontsDirPath file)) = false →
        fontAttempt io name size = io.truetype file size) ∧
    (List.lookup (lowerStr name) dramaticFonts = Option.none →
        fontAttempt io name size = io.truetype name size) ∧
    (∀ f, fontAttempt io name size = some f → getFont io name size = f) ∧
    (∀ f, fontAttempt io name size = Option.none →
        io.truetype arialName size = some f → getFont io name size = f) ∧
    (fontAttempt io name size = Option.none →
        io.truetype arialName size = Option.none →
        getFont io name size = io.defaultFont) := by
  refine ⟨⟨getFont io name size, rfl⟩, ?_, ?_, ?_, ?_, ?_, ?_⟩
  · intro file hf hext
    simp [fontAttempt, hf, hext]
  · intro file hf hext
    simp [fontAttempt, hf, hext]
  · intro hf
    simp only [fontAttempt, hf]
  · intro f ha
    simp only [getFont, ha]
  · intro f ha har
    simp only [getFont, ha, har]
  · intro ha har
    simp only [getFont, ha, har]

/-- C8 witness: with an oracle in which every truetype load fails, the
resolution of an unaliased name falls through to the default font. -/
theorem claim8_font_fallback_witness :
    getFont (⟨fun _ _ => Option.none, fun _ => false, 42⟩ : FontIO Nat)
      ("nosuch".toList) 12 = 42 :=
  (claim8_font_fallback (⟨fun _ _ => Option.none, fun _ => false, 42⟩ : FontIO Nat)
    ("nosuch".toList) 12).2.2.2.2.2.2 rfl rfl

theorem applyTextEffects_unknown (cosD sinD : ℚ → ℚ) (x y : Int) (w h : Nat)
    (color : List Char) (ty : List Char) (s : EffectSettings)
    (t1 : ty ≠ shadowTag) (t2 : ty ≠ outlineTag) (t3 : ty ≠ glowTag)
    (t4 : ty ≠ depthTag) :
    applyTextEffects cosD sinD x y w h color (Effects.typed ty s) =
      some [⟨resolveOrigin x y w h, Fill.named color⟩] := by
  unfold applyTextEffects
  dsimp only
  rw [if_neg t1, if_neg t2, if_neg t3, if_neg t4]

theorem optMapM_append {α β : Type} (f : α → Option β) (l1 l2 : List α)
    (b1 b2 : List β) (h1 : optMapM f l1 = some b1) (h2 : optMapM f l2 = some b2) :
    optMapM f (l1 ++ l2) = some (b1 ++ b2) := by
  induction l1 generalizing b1 with
  | nil =>
      have hb : ([] : List β) = b1 := by injection h1
      rw [← hb]
      simpa using h2
  | cons a l ih =>
      unfold optMapM at h1
      cases hfa : f a with
      | none => rw [hfa] at h1; cases h1
      | some b =>
          rw [hfa] at h1
          cases hml : optMapM f l with
          | none => rw [hml] at h1; cases h1
          | some bs =>
              rw [hml] at h1
              have hb : b :: bs = b1 := by injection h1
              rw [← hb]
              show optMapM f (a :: (l ++ l2)) = some ((b :: bs) ++ b2)
              unfold optMapM
              rw [hfa, ih bs hml]
              rfl

/-- C9: a `type` key naming none of shadow/outline/glow/3d_depth makes
`_apply_text_effects` draw the plain base text exactly once at the resolved
origin and return without raising; in a multi-layer render such a layer
contributes exactly that one draw, and the layers before and after it
contribute exactly what they contribute on their own. -/
theorem claim9_unknown_effect (cosD sinD : ℚ → ℚ) (pre post : List LayerSpec)
    (bad : LayerSpec) (ty : List Char) (s : EffectSettings)
    (htype : bad.effects = Effects.typed ty s)
    (t1 : ty ≠ shadowTag) (t2 : ty ≠ outlineTag) (t3 : ty ≠ glowTag)
    (t4 : ty ≠ depthTag)
    (A B : List DrawCall)
    (hA : renderLayers cosD sinD pre = some A)
    (hB : renderLayers cosD sinD post = some B) :
    renderLayer cosD sinD bad =
      some [⟨resolveOrigin bad.x bad.y bad.w bad.h, Fill.named bad.color⟩] ∧
    renderLayers cosD sinD (pre ++ bad :: post) =
      some (A ++ [⟨resolveOrigin bad.x bad.y bad.w bad.h, Fill.named bad.color⟩] ++ B) := by
  have hbad : renderLayer cosD sinD bad =
      some [⟨resolveOrigin bad.x bad.y bad.w bad.h, Fill.named bad.color⟩] := by
    unfold renderLayer
    rw [htype]
    exact applyTextEffects_unknown cosD sinD bad.x bad.y bad.w bad.h bad.color
      ty s t1 t2 t3 t4
  refine ⟨hbad, ?_⟩
  unfold renderLayers at hA hB ⊢
  rcases Option.map_eq_some'.1 hA with ⟨As, hAs, hAj⟩
  rcases Option.map_eq_some'.1 hB with ⟨Bs, hBs, hBj⟩
  have hmid : optMapM (renderLayer cosD sinD) (bad :: post) =
      some ([⟨resolveOrigin bad.x bad.y bad.w bad.h, Fill.named bad.color⟩] :: Bs) := by
    unfold optMapM
    rw [hbad, hBs]
  rw [optMapM_append _ pre (bad :: post) As
    ([⟨resolveOrigin bad.x bad.y bad.w bad.h, Fill.named bad.color⟩] :: Bs) hAs hmid]
  simp only [Option.map_some']
  rw [List.flatten_append, List.flatten_cons, hAj, hBj]
  simp [List.append_assoc]

/-- C9 witness: a single layer with effect type "sparkle" renders exactly
one plain draw. -/
theorem claim9_unknown_effect_witness :
    renderLayers (fun _ => 0) (fun _ => 0)
      [⟨0, 0, 0, 0, whiteHex, Effects.typed ("sparkle".toList) {}⟩] =
      some ([] ++ [⟨resolveOrigin 0 0 0 0, Fill.named whiteHex⟩] ++ []) :=
  (claim9_unknown_effect (fun _ => 0) (fun _ => 0) [] []
    ⟨0, 0, 0, 0, whiteHex, Effects.typed ("sparkle".toList) {}⟩
    ("sparkle".toList) {} rfl (by decide) (by decide) (by decide) (by decide)
    [] [] rfl rfl).2

theorem sum_map_const {α : Type} (l : List α) (n : Nat) :
    (l.map fun _ => n).sum = n * l.length := by
  induction l with
  | nil => simp
  | cons a l ih =>
      simp [ih, Nat.mul_succ]
      ring

theorem length_flatMap_const {α β : Type} (l : List α) (f : α → List β) (n : Nat)
    (h : ∀ a ∈ l, (f a).length = n) : (l.flatMap f).length = n * l.length := by
  induction l with
  | nil => simp
  | cons a l ih =>
      rw [List.flatMap_cons, List.length_append, h a (List.mem_cons_self a l),
        ih (fun b hb => h b (List.mem_cons_of_mem a hb))]
      simp [Nat.mul_succ, Nat.add_comm]

/-- C5: for glow radius `r ≥ 1` and opacity `o ≥ 0`, the glow effect runs
`steps = min(r, 20)` rings; ring `i` draws the text at the 12 offsets
obtained from the angles 0°, 30°, ..., 330° at radius `r*i/steps`
(truncated to int per coordinate) with per-draw alpha
`floor(255 * o * (1 - i/steps))`, and the base text is drawn once on top:
`12*steps` offset draws plus one base draw. -/
theorem claim5_glow_draws (cosD sinD : ℚ → ℚ) (x y : Int) (w h : Nat)
    (color : List Char) (s : EffectSettings) (gr : Int) (go : ℚ) (rgba : Rgba)
    (hgr : s.radius.getD 10 = gr) (hr1 : 1 ≤ gr)
    (hgo : s.opacity.getD (7/10) = go) (ho0 : 0 ≤ go)
    (hparse : hexToRgba (s.color.getD whiteHex) = some rgba) :
    ∃ glowDraws,
      applyTextEffects cosD sinD x y w h color (Effects.typed glowTag s) =
        some (glowDraws ++ [⟨resolveOrigin x y w h, Fill.named color⟩]) ∧
      glowAngles.length = 12 ∧
      glowDraws.length = 12 * (min gr 20).toNat ∧
      glowDraws = (pyRange 1 (min gr 20 + 1)).flatMap (fun i =>
        glowAngles.map (fun θ =>
          ⟨((resolveOrigin x y w h).1 +
              truncQ ((gr : ℚ) * (i : ℚ) / ((min gr 20 : Int) : ℚ) * cosD θ),
            (resolveOrigin x y w h).2 +
              truncQ ((gr : ℚ) * (i : ℚ) / ((min gr 20 : Int) : ℚ) * sinD θ)),
           Fill.rgba ⟨rgba.r, rgba.g, rgba.b,
             ⌊255 * go * (1 - (i : ℚ) / ((min gr 20 : Int) : ℚ))⌋⟩⟩)) := by
  have heq := applyTextEffects_glow cosD sinD x y w h color s rgba hparse
  rw [hgr, hgo] at heq
  have hst1 : (1 : Int) ≤ min gr 20 := by omega
  have hstQ : (0 : ℚ) < ((min gr 20 : Int) : ℚ) := by
    have : (0 : Int) < min gr 20 := by omega
    exact_mod_cast this
  have hform : ((pyRange 1 (min gr 20 + 1)).flatMap (fun i =>
      glowAngles.map (fun θ =>
        (⟨((resolveOrigin x y w h).1 +
            truncQ ((((i : ℚ) / ((min gr 20 : Int) : ℚ)) * ((gr : Int) : ℚ)) * cosD θ),
          (resolveOrigin x y w h).2 +
            truncQ ((((i : ℚ) / ((min gr 20 : Int) : ℚ)) * ((gr : Int) : ℚ)) * sinD θ)),
         Fill.rgba (applyOpacity rgba
           (go * (1 - (i : ℚ) / ((min gr 20 : Int) : ℚ))))⟩ : DrawCall)))) =
      ((pyRange 1 (min gr 20 + 1)).flatMap (fun i =>
      glowAngles.map (fun θ =>
        ⟨((resolveOrigin x y w h).1 +
            truncQ ((gr : ℚ) * (i : ℚ) / ((min gr 20 : Int) : ℚ) * cosD θ),
          (resolveOrigin x y w h).2 +
            truncQ ((gr : ℚ) * (i : ℚ) / ((min gr 20 : Int) : ℚ) * sinD θ)),
         Fill.rgba ⟨rgba.r, rgba.g, rgba.b,
           ⌊255 * go * (1 - (i : ℚ) / ((min gr 20 : Int) : ℚ))⌋⟩⟩))) := by
    apply List.flatMap_congr
    intro i hi
    rw [mem_pyRange] at hi
    have hi2 : i ≤ min gr 20 := by omega
    apply List.map_congr_left
    intro θ _
    have hrad : ((i : ℚ) / ((min gr 20 : Int) : ℚ)) * ((gr : Int) : ℚ) =
        (gr : ℚ) * (i : ℚ) / ((min gr 20 : Int) : ℚ) := by ring
    have hz : (0 : ℚ) ≤ 1 - (i : ℚ) / ((min gr 20 : Int) : ℚ) := by
      have hle : (i : ℚ) / ((min gr 20 : Int) : ℚ) ≤ 1 := by
        rw [div_le_one hstQ]
        exact_mod_cast hi2
      linarith
    have halpha : applyOpacity rgba
        (go * (1 - (i : ℚ) / ((min gr 20 : Int) : ℚ))) =
        ⟨rgba.r, rgba.g, rgba.b,
          ⌊255 * go * (1 - (i : ℚ) / ((min gr 20 : Int) : ℚ))⌋⟩ := by
      unfold applyOpacity
      rw [truncQ_eq_floor (mul_nonneg (by norm_num) (mul_nonneg ho0 hz))]
      rw [show (255 : ℚ) * (go * (1 - (i : ℚ) / ((min gr 20 : Int) : ℚ))) =
        255 * go * (1 - (i : ℚ) / ((min gr 20 : Int) : ℚ)) from
        (mul_assoc 255 go _).symm]
    rw [hrad, halpha]
  rw [hform] at heq
  have hlen : ((pyRange 1 (min gr 20 + 1)).flatMap (fun i =>
      glowAngles.map (fun θ =>
        (⟨((resolveOrigin x y w h).1 +
            truncQ ((gr : ℚ) * (i : ℚ) / ((min gr 20 : Int) : ℚ) * cosD θ),
          (resolveOrigin x y w h).2 +
            truncQ ((gr : ℚ) * (i : ℚ) / ((min gr 20 : Int) : ℚ) * sinD θ)),
         Fill.rgba ⟨rgba.r, rgba.g, rgba.b,
           ⌊255 * go * (1 - (i : ℚ) / ((min gr 20 : Int) : ℚ))⌋⟩⟩ : DrawCall)))).length =
      12 * (min gr 20).toNat := by
    rw [length_flatMap_const _ _ 12 (fun i _ => by simp [glowAngles]), length_pyRange]
    omega
  exact ⟨_, heq, rfl, hlen, rfl⟩

/-- C5 witness: with default settings (radius 10, opacity 0.7, white), the
glow issues 120 offset draws before the base draw. -/
theorem claim5_glow_draws_witness :
    ∃ g, applyTextEffects (fun _ => 0) (fun _ => 0) 0 0 0 0 whiteHex
        (Effects.typed glowTag {}) =
        some (g ++ [⟨resolveOrigin 0 0 0 0, Fill.named whiteHex⟩]) ∧
      g.length = 120 := by
  obtain ⟨g, h1, _, h3, _⟩ := claim5_glow_draws (fun _ => 0) (fun _ => 0) 0 0 0 0
    whiteHex {} 10 (7/10) ⟨255, 255, 255, 255⟩ rfl (by norm_num) rfl (by norm_num) rfl
  exact ⟨g, h1, by rw [h3]; decide⟩

theorem depthIdx_eq_floor {L n i : Int} (hL : 1 ≤ L) (hn : 1 ≤ n) (hi1 : 1 ≤ i) :
    depthIdx L n i = min ⌊((i : ℚ) / (L : ℚ)) * ((n : ℚ) - 1)⌋ (n - 1) := by
  unfold depthIdx
  rw [truncQ_eq_floor]
  apply mul_nonneg
  · apply div_nonneg
    · exact_mod_cast (by omega : (0 : Int) ≤ i)
    · exact_mod_cast (by omega : (0 : Int) ≤ L)
  · have h1 : (1 : ℚ) ≤ (n : ℚ) := by exact_mod_cast hn
    linarith

/-- C6: for a 3d_depth spec with `L ≥ 1` layers, angle `a` and distance
`d` over an `N ≥ 1` colour gradient, the text is drawn once per layer, for
`layer = L` down to `1` (back-to-front: position `k` in the draw list holds
layer `L - k`), each at offset
`(-int(layer*cos(radians(a))*d), -int(layer*sin(radians(a))*d))` from the
origin, filled with the gradient colour at index
`min(floor(layer/L*(N-1)), N-1)` — a real index of the list — and the base
text is drawn last at the origin, on top. -/
theorem claim6_depth_draws (cosD sinD : ℚ → ℚ) (x y : Int) (w h : Nat)
    (color : List Char) (s : EffectSettings) (L : Int) (grad : List (List Char))
    (hLdef : s.layers.getD 10 = L) (hL : 1 ≤ L)
    (hgdef : s.color_gradient.getD [grey33, grey66, grey99] = grad)
    (hN : 1 ≤ grad.length) :
    ∃ layerDraws,
      applyTextEffects cosD sinD x y w h color (Effects.typed depthTag s) =
        some (layerDraws ++ [⟨resolveOrigin x y w h, Fill.named color⟩]) ∧
      layerDraws.length = L.toNat ∧
      ∀ k : Nat, k < L.toNat →
        ∃ c, grad[(min ⌊(((L - (k : Int)) : Int) : ℚ) / (L : ℚ) *
              (((grad.length : Int) : ℚ) - 1)⌋ ((grad.length : Int) - 1)).toNat]? =
            some c ∧
          layerDraws[k]? = some
            ⟨((resolveOrigin x y w h).1 -
                truncQ ((((L - (k : Int)) : Int) : ℚ) * cosD (s.angle.getD 45) *
                  s.distance.getD 2),
              (resolveOrigin x y w h).2 -
                truncQ ((((L - (k : Int)) : Int) : ℚ) * sinD (s.angle.getD 45) *
                  s.distance.getD 2)),
             Fill.named c⟩ := by
  have hL10 : 1 ≤ s.layers.getD 10 := by rw [hLdef]; exact hL
  have hN0 : 1 ≤ (s.color_gradient.getD [grey33, grey66, grey99]).length := by
    rw [hgdef]; exact hN
  have heq := applyTextEffects_depth cosD sinD x y w h color s hL10 hN0
  rw [hLdef, hgdef] at heq
  refine ⟨_, heq, ?_, ?_⟩
  · rw [List.length_map, length_pyRangeDown]
  · intro k hk
    have hnInt : (1 : Int) ≤ (grad.length : Int) := by exact_mod_cast hN
    have hi1 : (1 : Int) ≤ L - (k : Int) := by omega
    have hiL : L - (k : Int) ≤ L := by omega
    have hb := depthIdx_bounds hL hnInt hi1 hiL
    have htn : (depthIdx L (grad.length : Int) (L - (k : Int))).toNat < grad.length := by
      omega
    refine ⟨grad.getD (depthIdx L (grad.length : Int) (L - (k : Int))).toNat blackHex,
      ?_, ?_⟩
    · rw [← depthIdx_eq_floor hL hnInt hi1]
      rw [List.getElem?_eq_getElem htn, List.getD_eq_getElem _ _ htn]
    · rw [List.getElem?_map, getElem?_pyRangeDown hk]
      simp only [Option.map_some']
      rw [show (((L - (k : Int)) : Int) : ℚ) *
          (cosD (s.angle.getD 45) * s.distance.getD 2) =
          (((L - (k : Int)) : Int) : ℚ) * cosD (s.angle.getD 45) * s.distance.getD 2
          from (mul_assoc _ _ _).symm]
      rw [show (((L - (k : Int)) : Int) : ℚ) *
          (sinD (s.angle.getD 45) * s.distance.getD 2) =
          (((L - (k : Int)) : Int) : ℚ) * sinD (s.angle.getD 45) * s.distance.getD 2
          from (mul_assoc _ _ _).symm]

/-- C6 witness: with default settings (10 layers over a 3-colour gradient)
the effect draws 10 layers before the base draw. -/
theorem claim6_depth_draws_witness :
    ∃ ld, applyTextEffects (fun _ => 0) (fun _ => 0) 0 0 0 0 whiteHex
        (Effects.typed depthTag {}) =
        some (ld ++ [⟨resolveOrigin 0 0 0 0, Fill.named whiteHex⟩]) ∧
      ld.length = 10 := by
  obtain ⟨ld, h1, h2, _⟩ := claim6_depth_draws (fun _ => 0) (fun _ => 0) 0 0 0 0
    whiteHex {} 10 [grey33, grey66, grey99] rfl (by norm_num) rfl (by norm_num)
  exact ⟨ld, h1, by rw [h2]; decide⟩

theorem mem_flatMap_ite {β : Type} {l : List Int} {P : Int → Prop} [DecidablePred P]
    {g : Int → β} {b : β} :
    b ∈ l.flatMap (fun oy => if P oy then [] else [g oy]) ↔
      ∃ oy ∈ l, ¬ P oy ∧ b = g oy := by
  rw [List.mem_flatMap]
  constructor
  · rintro ⟨oy, hoy, hb⟩
    by_cases hP : P oy
    · rw [if_pos hP] at hb
      cases hb
    · rw [if_neg hP] at hb
      exact ⟨oy, hoy, hP, List.mem_singleton.1 hb⟩
  · rintro ⟨oy, hoy, hP, rfl⟩
    refine ⟨oy, hoy, ?_⟩
    rw [if_neg hP]
    exact List.mem_singleton.2 rfl

theorem length_flatMap_ite_of_not {β : Type} {l : List Int} {P : Int → Prop}
    [DecidablePred P] {g : Int → β} (h : ∀ oy ∈ l, ¬ P oy) :
    (l.flatMap fun oy => if P oy then [] else [g oy]).length = l.length := by
  induction l with
  | nil => rfl
  | cons a l ih =>
      rw [List.flatMap_cons, List.length_append, if_neg (h a (List.mem_cons_self a l)),
        ih (fun b hb => h b (List.mem_cons_of_mem a hb))]
      simp [Nat.add_comm]

theorem length_flatMap_ite_eq_zero {β : Type} (l : List Int) (g : Int → β) :
    (l.flatMap fun oy => if oy = (0 : Int) then [] else [g oy]).length =
      l.length - l.count 0 := by
  induction l with
  | nil => rfl
  | cons a l ih =>
      have hcl := List.count_le_length (0 : Int) l
      by_cases ha : a = 0
      · subst ha
        rw [List.flatMap_cons, if_pos rfl]
        simp only [List.nil_append, ih, List.count_cons_self, List.length_cons]
        omega
      · rw [List.flatMap_cons, if_neg ha, List.length_append, ih,
          List.count_cons_of_ne (Ne.symm ha)]
        simp only [List.length_cons, List.length_nil]
        omega

theorem nodup_flatMap_ite {β : Type} {l : List Int} {P : Int → Prop} [DecidablePred P]
    {g : Int → β} (hinj : ∀ a b, g a = g b → a = b) (hl : l.Nodup) :
    (l.flatMap fun oy => if P oy then [] else [g oy]).Nodup := by
  induction l with
  | nil => exact List.nodup_nil
  | cons a l ih =>
      rw [List.flatMap_cons]
      rw [List.nodup_cons] at hl
      by_cases hP : P a
      · rw [if_pos hP]
        exact ih hl.2
      · rw [if_neg hP, List.singleton_append, List.nodup_cons]
        refine ⟨?_, ih hl.2⟩
        intro hmem
        rcases mem_flatMap_ite.1 hmem with ⟨oy, hoy, _, heq⟩
        have hao := hinj a oy heq
        subst hao
        exact hl.1 hoy

theorem sum_map_ite_zero (l : List Int) (n : Nat) (hn : 1 ≤ n) :
    (l.map fun x => if x = (0 : Int) then n - 1 else n).sum =
      n * l.length - l.count 0 := by
  induction l with
  | nil => simp
  | cons a l ih =>
      have hcl := List.count_le_length (0 : Int) l
      have hml : l.length ≤ n * l.length := Nat.le_mul_of_pos_left _ (by omega)
      by_cases ha : a = 0
      · subst ha
        simp [List.map_cons, List.sum_cons, ih, List.count_cons_self,
          List.length_cons, Nat.mul_succ]
        omega
      · simp [List.map_cons, if_neg ha, List.sum_cons, ih,
          List.count_cons_of_ne (Ne.symm ha), List.length_cons, Nat.mul_succ]
        omega

/-- C4: for outline width `w ≥ 0`, the outline effect issues exactly
`(2w+1)^2 - 1` offset draws — one, and only one, at `origin + (dx, dy)` for
every integer pair `(dx, dy)` of `[-w, w] × [-w, w]` other than `(0, 0)` —
each filled with the outline colour at the outline opacity, followed by
exactly one draw of the base text at the origin, on top. -/
theorem claim4_outline_draws (cosD sinD : ℚ → ℚ) (x y : Int) (w h : Nat)
    (color : List Char) (s : EffectSettings) (wd : Int) (oo : ℚ) (rgba : Rgba)
    (hwdef : s.width.getD 2 = wd) (hw0 : 0 ≤ wd)
    (hodef : s.opacity.getD 1 = oo)
    (hparse : hexToRgba (s.color.getD blackHex) = some rgba) :
    ∃ offs,
      applyTextEffects cosD sinD x y w h color (Effects.typed outlineTag s) =
        some (offs ++ [⟨resolveOrigin x y w h, Fill.named color⟩]) ∧
      ((offs.length : Int) = (2 * wd + 1) ^ 2 - 1) ∧
      offs.Nodup ∧
      (∀ d ∈ offs, d.fill = Fill.rgba (applyOpacity rgba oo)) ∧
      (∀ dx dy : Int,
        (⟨((resolveOrigin x y w h).1 + dx, (resolveOrigin x y w h).2 + dy),
          Fill.rgba (applyOpacity rgba oo)⟩ : DrawCall) ∈ offs ↔
          (-wd ≤ dx ∧ dx ≤ wd ∧ -wd ≤ dy ∧ dy ≤ wd ∧ ¬(dx = 0 ∧ dy = 0))) := by
  have heq := applyTextEffects_outline cosD sinD x y w h color s rgba hparse
  rw [hwdef, hodef] at heq
  refine ⟨_, heq, ?_, ?_, ?_, ?_⟩
  · have hcount : (pyRange (-wd) (wd + 1)).count 0 = 1 :=
      List.count_eq_one_of_mem (nodup_pyRange _ _)
        (mem_pyRange.2 ⟨by omega, by omega⟩)
    have hn1 : 1 ≤ (2 * wd + 1).toNat := by omega
    have hrows : ((pyRange (-wd) (wd + 1)).map (fun ox =>
        ((pyRange (-wd) (wd + 1)).flatMap (fun oy =>
          if ox = 0 ∧ oy = 0 then []
          else [(⟨((resolveOrigin x y w h).1 + ox, (resolveOrigin x y w h).2 + oy),
                Fill.rgba (applyOpacity rgba oo)⟩ : DrawCall)])).length)) =
        ((pyRange (-wd) (wd + 1)).map (fun ox =>
          if ox = (0 : Int) then (2 * wd + 1).toNat - 1 else (2 * wd + 1).toNat)) := by
      apply List.map_congr_left
      intro ox _
      by_cases hox : ox = 0
      · subst hox
        rw [if_pos rfl]
        have hcong : (fun oy => if (0 : Int) = 0 ∧ oy = 0 then ([] : List DrawCall)
            else [(⟨((resolveOrigin x y w h).1 + 0, (resolveOrigin x y w h).2 + oy),
              Fill.rgba (applyOpacity rgba oo)⟩ : DrawCall)]) =
            (fun oy => if oy = 0 then []
            else [(⟨((resolveOrigin x y w h).1 + 0, (resolveOrigin x y w h).2 + oy),
              Fill.rgba (applyOpacity rgba oo)⟩ : DrawCall)]) := by
          funext oy
          simp
        rw [hcong, length_flatMap_ite_eq_zero, length_pyRange, hcount]
        omega
      · rw [if_neg hox, length_flatMap_ite_of_not (fun oy _ hco => hox hco.1),
          length_pyRange]
        omega
    rw [List.length_flatMap]
    simp only [Function.comp_def]
    rw [hrows, sum_map_ite_zero _ _ hn1, length_pyRange, hcount]
    have h1m : 1 ≤ (2 * wd + 1).toNat * ((wd + 1) - (-wd)).toNat := by
      have : 1 ≤ ((wd + 1) - (-wd)).toNat := by omega
      exact Nat.mul_le_mul hn1 this
    rw [Nat.cast_sub h1m, Nat.cast_mul]
    have hm1 : (((2 * wd + 1).toNat : Int)) = 2 * wd + 1 := by omega
    have hm2 : ((((wd + 1) - (-wd)).toNat : Int)) = 2 * wd + 1 := by omega
    rw [hm1, hm2]
    ring
  · rw [List.nodup_flatMap]
    constructor
    · intro ox _
      apply nodup_flatMap_ite
      · intro a b hab
        have h2 := congrArg Prod.snd (congrArg DrawCall.pos hab)
        dsimp only at h2
        omega
      · exact nodup_pyRange _ _
    · apply List.Pairwise.imp ?_ (nodup_pyRange (-wd) (wd + 1))
      intro ox1 ox2 hne
      intro d hd1 hd2
      rcases mem_flatMap_ite.1 hd1 with ⟨oy1, _, _, he1⟩
      rcases mem_flatMap_ite.1 hd2 with ⟨oy2, _, _, he2⟩
      have h1 := congrArg Prod.fst (congrArg DrawCall.pos (he1.symm.trans he2))
      dsimp only at h1
      exact hne (by omega)
  · intro d hd
    rcases List.mem_flatMap.1 hd with ⟨ox, _, hd2⟩
    rcases mem_flatMap_ite.1 hd2 with ⟨oy, _, _, rfl⟩
    rfl
  · intro dx dy
    constructor
    · intro hmem
      rcases List.mem_flatMap.1 hmem with ⟨ox, hox, hd2⟩
      rcases mem_flatMap_ite.1 hd2 with ⟨oy, hoy, hP, heq2⟩
      rw [mem_pyRange] at hox hoy
      have h1 := congrArg Prod.fst (congrArg DrawCall.pos heq2)
      have h2 := congrArg Prod.snd (congrArg DrawCall.pos heq2)
      dsimp only at h1 h2
      have hdx : dx = ox := by omega
      have hdy : dy = oy := by omega
      subst hdx
      subst hdy
      exact ⟨by omega, by omega, by omega, by omega, hP⟩
    · rintro ⟨h1, h2, h3, h4, h5⟩
      apply List.mem_flatMap.2
      refine ⟨dx, mem_pyRange.2 ⟨by omega, by omega⟩, ?_⟩
      apply mem_flatMap_ite.2
      exact ⟨dy, mem_pyRange.2 ⟨by omega, by omega⟩, h5, rfl⟩

/-- C4 witness: with the default width 2 the outline issues 24 offset
draws before the base draw. -/
theorem claim4_outline_draws_witness :
    ∃ offs, applyTextEffects (fun _ => 0) (fun _ => 0) 0 0 0 0 whiteHex
        (Effects.typed outlineTag {}) =
        some (offs ++ [⟨resolveOrigin 0 0 0 0, Fill.named whiteHex⟩]) ∧
      ((offs.length : Int) = 24) := by
  obtain ⟨offs, h1, h2, _⟩ := claim4_outline_draws (fun _ => 0) (fun _ => 0) 0 0 0 0
    whiteHex {} 2 1 ⟨0, 0, 0, 255⟩ rfl (by norm_num) rfl rfl
  exact ⟨offs, h1, by rw [h2]; decide⟩
